import Mathlib

/-!
Verification of the COLIBRI segment-reservation keeper and index algebra.

This file gives a shallow embedding of the reservation data model and its
mutators (package `segment`, file with `Reservation.SetIndexActive` etc.),
and of the keeper's matching, compliance and wake-up aggregation logic
(package `reservationstore`).  Go receiver mutation is modelled by explicit
state passing: a mutator takes the reservation and returns the new
reservation together with an optional error message; every error return in
the source happens before any mutation, so an error result always carries
the unchanged reservation.  Machine integers are modelled as `Nat`/`Int`;
`time.Time` and `time.Duration` are nanosecond counts as `Int`.

Helpers that live in packages outside the provided sources
(`base.FindIndex`, `base.ValidateIndices`, `reservation.IndexNumber`
arithmetic, the index filters used by `compliance`, the path-step helpers)
are modelled from the specification; each such definition carries a doc
comment starting with `Modelled from the spec:`.
-/

/-- State of a reservation index: Temporary (just allocated, unconfirmed),
Pending (confirmed), Active (committed, live in the data plane). -/
inductive IndexState where
  | IndexTemporary
  | IndexPending
  | IndexActive
deriving DecidableEq, Repr

open IndexState

/-- Modelled from the spec: `reservation.IndexNumber` is an integer in
[0,15]; the Go type is outside the provided sources.  We represent it as a
`Nat` holding the 4-bit value. -/
abbrev IndexNumber := Nat

/-- Modelled from the spec: modular addition on the 4-bit index-number ring. -/
def IndexNumber.Add (i n : IndexNumber) : IndexNumber := (i + n) % 16

/-- Modelled from the spec: modular subtraction on the 4-bit index-number ring. -/
def IndexNumber.Sub (i n : IndexNumber) : IndexNumber := (i + 16 - n % 16) % 16

/-- An index of a segment reservation: version number on the 4-bit ring,
expiration time, lifecycle state and bandwidth classes.  The token is not
modelled (none of the verified operations inspects it). -/
structure Index where
  Idx : IndexNumber
  Expiration : Int
  State : IndexState
  MinBW : Nat
  MaxBW : Nat
  AllocBW : Nat
deriving DecidableEq, Repr

/-- One step of the reservation's AS-hop path. -/
structure Step where
  Ingress : Nat
  Egress : Nat
  IA : Nat
deriving DecidableEq, Repr

/-- A segment reservation: the fields of the Go struct that the verified
operations read or write (ID is reduced to its ASID; token-related and
dataplane-path fields are omitted). `activeIndex` is `-1` when no index is
active. -/
structure Reservation where
  ASID : Nat
  Indices : List Index
  activeIndex : Int
  PathType : Nat
  TrafficSplit : Nat
  PathEndProps : Nat
  Steps : List Step
deriving DecidableEq, Repr

/-- `NewReservation` returns a reservation with no indices and no active index. -/
def NewReservation (asid : Nat) : Reservation :=
  { ASID := asid, Indices := [], activeIndex := -1,
    PathType := 0, TrafficSplit := 0, PathEndProps := 0, Steps := [] }

/-- Modelled from the spec: `base.FindIndex` (outside the provided sources)
returns the slice position of the index with the given index number, or a
NotFoundError when the reservation does not contain it. -/
def FindIndex : List Index → IndexNumber → Option Nat
  | [], _ => none
  | i :: rest, idx =>
      if i.Idx = idx then some 0 else (FindIndex rest idx).map (· + 1)

/-- State of the index at a slice position, if the position exists. -/
def stateAt (l : List Index) (n : Nat) : Option IndexState :=
  (l.get? n).map (·.State)

/-- Replace the state of the index at a slice position (no-op when the
position does not exist; in the source the position always exists). -/
def setState : List Index → Nat → IndexState → List Index
  | [], _, _ => []
  | i :: rest, 0, s => { i with State := s } :: rest
  | i :: rest, n + 1, s => i :: setState rest n s

/-- Modelled from the spec: `base.ValidateIndices` (outside the provided
sources).  Per the spec, a valid index list has index numbers that are
consecutive on the 4-bit ring, non-decreasing expiration times, each
AllocBW within [MinBW, MaxBW], and at most 16 indices. -/
def chainOk : Index → List Index → Bool
  | _, [] => true
  | prev, i :: rest =>
      (i.Idx = IndexNumber.Add prev.Idx 1) && decide (prev.Expiration ≤ i.Expiration)
        && chainOk i rest

/-- Modelled from the spec: the top-level index-list validation. -/
def ValidateIndices (l : List Index) : Bool :=
  l.all (fun i => decide (i.MinBW ≤ i.AllocBW) && decide (i.AllocBW ≤ i.MaxBW))
    && decide (l.length ≤ 16)
    && (match l with
        | [] => true
        | i :: rest => chainOk i rest)

/-- `Reservation.addIndex`: validate the trial list `Indices ++ [index]`
and commit it only when validation passes. -/
def addIndex (r : Reservation) (index : Index) : Reservation × Option String :=
  if ValidateIndices (r.Indices ++ [index]) then
    ({ r with Indices := r.Indices ++ [index] }, none)
  else (r, some "validation failed")

/-- `Reservation.NewIndex`: append a new Temporary index built from the
arguments (the auto-built token is not modelled). -/
def NewIndex (r : Reservation) (idx : IndexNumber) (expTime : Int)
    (minBW maxBW allocBW : Nat) : Reservation × Option String :=
  addIndex r { Idx := idx, Expiration := expTime, State := IndexTemporary,
               MinBW := minBW, MaxBW := maxBW, AllocBW := allocBW }

/-- `Reservation.SetIndexConfirmed`: Temporary to Pending; error when the
index is not found or already Active. -/
def SetIndexConfirmed (r : Reservation) (idx : IndexNumber) :
    Reservation × Option String :=
  match FindIndex r.Indices idx with
  | none => (r, some "index not found in this reservation")
  | some sliceIndex =>
      if stateAt r.Indices sliceIndex = some IndexActive then
        (r, some "cannot confirm an already active index")
      else
        ({ r with Indices := setState r.Indices sliceIndex IndexPending }, none)

/-- `Reservation.SetIndexActive`: activate the index with the given number.
Succeeds immediately when it is already the active one; refuses a
non-Pending/non-Active index and an index strictly older (earlier slice
position) than the current active one; on success drops all indices before
the target, marks the (now first) index Active and sets `activeIndex = 0`. -/
def SetIndexActive (r : Reservation) (idx : IndexNumber) :
    Reservation × Option String :=
  match FindIndex r.Indices idx with
  | none => (r, some "index not found in this reservation")
  | some sliceIndex =>
      if r.activeIndex = (sliceIndex : Int) then (r, none)
      else if stateAt r.Indices sliceIndex ≠ some IndexPending ∧
              stateAt r.Indices sliceIndex ≠ some IndexActive then
        (r, some "attempt to activate a non confirmed index")
      else if r.activeIndex > -1 ∧ r.activeIndex > (sliceIndex : Int) then
        (r, some "activating a past index")
      else
        ({ r with Indices := setState (r.Indices.drop sliceIndex) 0 IndexActive,
                  activeIndex := 0 }, none)

/-- `Reservation.SetIndexInactive`: when the active index is at position 0,
flip it back to Pending and clear `activeIndex`. -/
def SetIndexInactive (r : Reservation) : Reservation :=
  if r.activeIndex = 0 then
    { r with Indices := setState r.Indices 0 IndexPending, activeIndex := -1 }
  else r

/-- `Reservation.RemoveIndex`: remove all indices from the beginning up to
and including the one with the given number; adjust `activeIndex` downward
when it survives, otherwise clear it. -/
def RemoveIndex (r : Reservation) (idx : IndexNumber) :
    Reservation × Option String :=
  match FindIndex r.Indices idx with
  | none => (r, some "index not found in this reservation")
  | some sliceIndex =>
      ({ r with Indices := r.Indices.drop (sliceIndex + 1),
                activeIndex :=
                  if r.activeIndex > (sliceIndex : Int) then
                    r.activeIndex - (sliceIndex + 1)
                  else -1 }, none)

/-- `Reservation.NextIndexToRenew`: the successor on the ring of the last
index's number, or 0 (successor of 15) when there are no indices. -/
def NextIndexToRenew (r : Reservation) : IndexNumber :=
  match r.Indices.getLast? with
  | some i => IndexNumber.Add i.Idx 1
  | none => IndexNumber.Add (IndexNumber.Sub 0 1) 1

/-- `Reservation.NextIndexToActivate`: none on an empty list; the last
index when no index is active; otherwise the index right after the active
one, if any. -/
def NextIndexToActivate (r : Reservation) : Option Index :=
  if r.Indices.length = 0 then none
  else if r.activeIndex < 0 then r.Indices.get? (r.Indices.length - 1)
  else if r.activeIndex + 1 < (r.Indices.length : Int) then
    r.Indices.get? (r.activeIndex + 1).toNat
  else none

/-- `Reservation.ActiveIndex`: the index at position `activeIndex`, or none. -/
def ActiveIndex (r : Reservation) : Option Index :=
  if r.activeIndex = -1 then none
  else r.Indices.get? r.activeIndex.toNat

/-- A path through the network as handed out by the router; only its
identity matters to the keeper logic verified here. -/
abbrev SnetPath := Nat

/-- `configuration`: the per-entry requirements loaded from
reservations.json.  The path predicate is modelled by its two evaluation
modes: a boolean over the interface sequence of a step list
(`EvalInterfaces`) and a boolean over candidate paths (used by `Eval`,
which filters the router-returned paths). -/
structure Configuration where
  dst : Nat
  pathType : Nat
  evalInterfaces : List (Nat × Nat) → Bool
  evalPath : SnetPath → Bool
  minBW : Nat
  maxBW : Nat
  splitCls : Nat
  endProps : Nat

/-- A keeper entry: one configuration, with the matched reservation when
one exists. -/
structure Entry where
  conf : Configuration
  rsv : Option Reservation

/-- Modelled from the spec: `PathSteps.DstIA` (outside the provided
sources) — the destination IA of a step sequence, i.e. the IA of its last
step. -/
def DstIA (steps : List Step) : Nat :=
  match steps.getLast? with
  | some s => s.IA
  | none => 0

/-- Modelled from the spec: `PathSteps.Interfaces` (outside the provided
sources) — the interface sequence of the steps, fed to the path predicate. -/
def Interfaces (steps : List Step) : List (Nat × Nat) :=
  steps.map (fun s => (s.Ingress, s.Egress))

/-- The compatibility test of `findCompatibleConfiguration`, as one
boolean: destination IA, path type, traffic split and end properties must
be equal and the predicate must accept the reservation's interfaces. -/
def compatibleB (r : Reservation) (c : Configuration) : Bool :=
  (DstIA r.Steps = c.dst) && (r.PathType = c.pathType)
    && (r.TrafficSplit = c.splitCls) && (r.PathEndProps = c.endProps)
    && c.evalInterfaces (Interfaces r.Steps)

/-- `findCompatibleConfiguration`, iterating with an explicit position
counter: the first configuration passing all five checks is returned (the
Go function returns -1, here `none`, when no one is compatible). -/
def findCompatibleFrom (r : Reservation) : Nat → List Configuration → Option Nat
  | _, [] => none
  | i, c :: rest =>
      if DstIA r.Steps ≠ c.dst then findCompatibleFrom r (i + 1) rest
      else if r.PathType ≠ c.pathType then findCompatibleFrom r (i + 1) rest
      else if r.TrafficSplit ≠ c.splitCls then findCompatibleFrom r (i + 1) rest
      else if r.PathEndProps ≠ c.endProps then findCompatibleFrom r (i + 1) rest
      else if ¬ c.evalInterfaces (Interfaces r.Steps) then
        findCompatibleFrom r (i + 1) rest
      else some i

/-- `findCompatibleConfiguration(r, conf)`. -/
def findCompatibleConfiguration (r : Reservation) (conf : List Configuration) :
    Option Nat :=
  findCompatibleFrom r 0 conf

/-- `matchRsvsWithConfiguration`: greedily match each reservation, in
order, with the first compatible configuration still in the pool, removing
claimed configurations; reservations without a match are dropped and
leftover configurations become entries without a reservation. -/
def matchRsvsWithConfiguration : List Reservation → List Configuration → List Entry
  | [], conf => conf.map (fun c => { conf := c, rsv := none })
  | r :: rs, conf =>
      match findCompatibleConfiguration r conf with
      | none => matchRsvsWithConfiguration rs conf
      | some i =>
          match conf.get? i with
          | none => matchRsvsWithConfiguration rs conf
          | some c =>
              { conf := c, rsv := some r } ::
                matchRsvsWithConfiguration rs (conf.eraseIdx i)

/-- One nanosecond-denominated second, as in Go's `time.Second`. -/
def Second : Int := 1000000000

/-- One minute in nanoseconds. -/
def Minute : Int := 60 * Second

/-- `sleepAtLeast`: the keeper sleeps at least this long (4 s). -/
def sleepAtLeast : Int := 4 * Second

/-- `sleepAtMost`: the keeper sleeps at most this long (5 min). -/
def sleepAtMost : Int := 5 * Minute

/-- `minDuration`: minimum future validity required of compliant indices. -/
def minDuration : Int := 2 * sleepAtMost

/-- `newIndexMinDuration`: minimum validity requested for new indices. -/
def newIndexMinDuration : Int := 2 * minDuration

/-- `serrors.List.Coalesce` over the per-entry error slots: none when
every slot is empty, otherwise one combined error. -/
def coalesce (errs : List (Option String)) : Option String :=
  match errs.filterMap (fun e => e) with
  | [] => none
  | es => some (String.intercalate "; " es)

/-- `keeper.OneShot` after the join of the per-entry tasks: the concurrent
fan-out is modelled by the already-collected per-entry wake-up times and
error slots (one slot per entry, written independently in the source and
merged single-threaded after the join).  `now` models `k.manager.Now()`,
which the embedding treats as constant during the call. -/
def OneShot (now : Int) (times : List Int) (errs : List (Option String)) :
    Int × Option String :=
  match coalesce errs with
  | some e => (now + sleepAtLeast, some e)
  | none =>
      let wakeupAtLatest :=
        times.foldl (fun w t => if t < w then t else w) (now + sleepAtMost)
      if wakeupAtLatest - now < sleepAtLeast then (now + sleepAtLeast, none)
      else (wakeupAtLatest, none)

/-- The fields of `seg.SetupReq` that the verified keeper logic
constructs; `index` and `timestamp` are the `Index` and timestamp of the
embedded `base.Request`, `path` identifies the snet path the request was
built from (its conversion to steps is performed by collaborators outside
the provided sources). -/
structure SetupReq where
  timestamp : Int
  index : IndexNumber
  expirationTime : Int
  pathType : Nat
  minBW : Nat
  maxBW : Nat
  splitCls : Nat
  path : SnetPath
deriving DecidableEq, Repr

/-- `entry.PrepareSetupRequest`: a setup request for a brand-new
reservation always carries index number 0 (`base.NewRequest(now, id, 0,
len(steps))`) and the expiration time passed by the caller. -/
def PrepareSetupRequest (c : Configuration) (now expTime : Int) (p : SnetPath) :
    SetupReq :=
  { timestamp := now, index := 0, expirationTime := expTime,
    pathType := c.pathType, minBW := c.minBW, maxBW := c.maxBW,
    splitCls := c.splitCls, path := p }

/-- The loop body of `keeper.askNewReservation`: `setup` is the
`Manager.SetupRequest` collaborator, returning the reservation stored into
`req.Reservation` (if any) together with the returned error.  The first
request that yields a non-nil reservation wins, even when it also returned
an error; when every path is exhausted the keeper errors without a
reservation. -/
def askNewReservationLoop (setup : SetupReq → Option Reservation × Option String)
    (c : Configuration) (now : Int) :
    List SnetPath → Option Reservation × Option String
  | [] => (none, some "no more best effort paths to create reservation")
  | p :: ps =>
      let req := PrepareSetupRequest c now (now + newIndexMinDuration) p
      match setup req with
      | (some r, err) => (some r, err)
      | (none, _) => askNewReservationLoop setup c now ps

/-- `keeper.askNewReservation` on a successful `PathsTo` call: the
candidate paths are filtered by the configured predicate (`Eval`) and
tried in the router-returned order. -/
def askNewReservation (setup : SetupReq → Option Reservation × Option String)
    (c : Configuration) (now : Int) (paths : List SnetPath) :
    Option Reservation × Option String :=
  askNewReservationLoop setup c now (paths.filter c.evalPath)

/-- The compliance classification of a reservation against its
configuration. -/
inductive Compliance where
  | NeedsIndices
  | NeedsActivation
  | Compliant
deriving DecidableEq, Repr

open Compliance

/-- Modelled from the spec: the index filters `ByMinBW`, `ByMaxBW`,
`NotConfirmed` and `ByExpiration` used by `compliance` (defined outside
the provided sources): keep the indices with `MinBW ≥ conf.minBW`,
`MaxBW ≤ conf.maxBW`, state in {Pending, Active} and expiration at least
`untilTime`. -/
def complianceFilter (c : Configuration) (untilTime : Int) (l : List Index) :
    List Index :=
  l.filter (fun i =>
    decide (c.minBW ≤ i.MinBW) && decide (i.MaxBW ≤ c.maxBW)
      && (i.State ≠ IndexTemporary) && decide (untilTime ≤ i.Expiration))

/-- Modelled from the spec: `switchable-from A` means suitable to replace
A as the active index under monotonic activation — strictly newer in ring
order within the kept index slice.  With no active index every index is
switchable.  Within a valid reservation the kept indices have pairwise
distinct numbers and every index other than the active one is strictly
newer than it, so strict newness is modelled as having a different index
number. -/
def switchableFrom (active : Option Index) (i : Index) : Bool :=
  match active with
  | none => true
  | some a => i.Idx ≠ a.Idx

/-- `compliance(e, until)`: NeedsIndices when no index passes the filter;
NeedsActivation when every passing index is switchable from the current
active one (i.e. the `NotSwitchableFrom` filter empties the set);
Compliant otherwise. -/
def compliance (c : Configuration) (rsv : Reservation) (untilTime : Int) :
    Compliance :=
  let idxs := complianceFilter c untilTime rsv.Indices
  if idxs.length = 0 then NeedsIndices
  else if (idxs.filter (fun i => ! switchableFrom (ActiveIndex rsv) i)).length = 0 then
    NeedsActivation
  else Compliant

/-- `keeper.activateIndex` on the locally stored reservation: activate the
next index to activate, and on an RPC failure (`rpcFails`) roll the
reservation back with `SetIndexInactive` before surfacing the error.  The
source dereferences `NextIndexToActivate()` unconditionally; the keeper
only calls this under a `NeedsActivation` classification, where the next
index exists, so the `none` branch is modelled as a plain error. -/
def activateIndex (rpcFails : Bool) (r : Reservation) :
    Reservation × Option String :=
  match NextIndexToActivate r with
  | none => (r, some "no index to activate")
  | some nxt =>
      match SetIndexActive r nxt.Idx with
      | (r1, some e) => (r1, some e)
      | (r1, none) =>
          if rpcFails then (SetIndexInactive r1, some "activation rpc failed")
          else (r1, none)

/-! ### Basic facts about the index-list helpers -/

theorem findIndex_lt {k : IndexNumber} :
    ∀ {l : List Index} {p : Nat}, FindIndex l k = some p → p < l.length := by
  intro l
  induction l with
  | nil => intro p h; simp [FindIndex] at h
  | cons i rest ih =>
      intro p h
      rw [FindIndex] at h
      by_cases hik : i.Idx = k
      · rw [if_pos hik] at h
        cases h
        simp
      · rw [if_neg hik] at h
        rcases Option.map_eq_some'.mp h with ⟨q, hq, hqp⟩
        have := ih hq
        simp only [List.length_cons]
        omega

theorem findIndex_get {k : IndexNumber} :
    ∀ {l : List Index} {p : Nat}, FindIndex l k = some p →
      ∃ a, l.get? p = some a ∧ a.Idx = k := by
  intro l
  induction l with
  | nil => intro p h; simp [FindIndex] at h
  | cons i rest ih =>
      intro p h
      rw [FindIndex] at h
      by_cases hik : i.Idx = k
      · rw [if_pos hik] at h
        cases h
        exact ⟨i, rfl, hik⟩
      · rw [if_neg hik] at h
        rcases Option.map_eq_some'.mp h with ⟨q, hq, hqp⟩
        rcases ih hq with ⟨a, ha, hak⟩
        subst hqp
        exact ⟨a, by simpa using ha, hak⟩

theorem length_setState :
    ∀ (l : List Index) (n : Nat) (s : IndexState),
      (setState l n s).length = l.length
  | [], _, _ => rfl
  | _ :: _, 0, _ => rfl
  | i :: rest, n + 1, s => by
      simp [setState, length_setState rest n s]

theorem get?_setState_self :
    ∀ (l : List Index) (n : Nat) (s : IndexState),
      (setState l n s).get? n = (l.get? n).map (fun i => { i with State := s })
  | [], _, _ => by simp [setState]
  | i :: rest, 0, s => by simp [setState]
  | i :: rest, n + 1, s => by
      simp only [setState, List.get?_cons_succ]
      exact get?_setState_self rest n s

theorem get?_setState_other :
    ∀ (l : List Index) (n m : Nat) (s : IndexState), m ≠ n →
      (setState l n s).get? m = l.get? m
  | [], _, _, _, _ => by simp [setState]
  | i :: rest, 0, 0, s, h => absurd rfl h
  | i :: rest, 0, m + 1, s, h => by simp [setState]
  | i :: rest, n + 1, 0, s, h => by simp [setState]
  | i :: rest, n + 1, m + 1, s, h => by
      simp only [setState, List.get?_cons_succ]
      exact get?_setState_other rest n m s (by omega)

theorem mem_setState :
    ∀ {l : List Index} {n : Nat} {s : IndexState} {a : Index},
      a ∈ setState l n s → a ∈ l ∨ a.State = s := by
  intro l
  induction l with
  | nil => intro n s a h; simp [setState] at h
  | cons i rest ih =>
      intro n s a h
      cases n with
      | zero =>
          rcases List.mem_cons.mp h with h | h
          · right; rw [h]
          · left; exact List.mem_cons_of_mem i h
      | succ n =>
          rcases List.mem_cons.mp h with h | h
          · left; rw [h]; exact List.mem_cons_self i rest
          · rcases ih h with h | h
            · left; exact List.mem_cons_of_mem i h
            · right; exact h

theorem tail_setState_succ (l : List Index) (n : Nat) (s : IndexState) :
    (setState l (n + 1) s).tail = setState l.tail n s := by
  cases l <;> rfl

/-! ### The valid-state invariant -/

/-- No index of the list is Active. -/
def noActive (l : List Index) : Prop := ∀ i ∈ l, i.State ≠ IndexActive

/-- The list starts with an Active index and no other index is Active. -/
def headActive (l : List Index) : Prop :=
  stateAt l 0 = some IndexActive ∧ ∀ i ∈ l.tail, i.State ≠ IndexActive

/-- The per-reservation invariant the spec demands after every mutator:
either `activeIndex = -1` and no index is Active, or `activeIndex = 0`,
the index at position 0 is Active and no other index is. -/
def ResInv (r : Reservation) : Prop :=
  (r.activeIndex = -1 ∧ noActive r.Indices) ∨
    (r.activeIndex = 0 ∧ headActive r.Indices)

theorem inv_NewReservation (asid : Nat) : ResInv (NewReservation asid) := by
  left
  constructor
  · rfl
  · intro i hi
    simp [NewReservation] at hi

theorem noActive_append (l : List Index) (x : Index) (hn : noActive l)
    (hx : x.State ≠ IndexActive) : noActive (l ++ [x]) := by
  intro i hi
  rcases List.mem_append.mp hi with hi | hi
  · exact hn i hi
  · simp at hi
    rw [hi]
    exact hx

theorem headActive_append (l : List Index) (x : Index) (hh : headActive l)
    (hx : x.State ≠ IndexActive) : headActive (l ++ [x]) := by
  rcases hh with ⟨hh0, hht⟩
  cases l with
  | nil => simp [stateAt] at hh0
  | cons y t =>
      constructor
      · simpa [stateAt] using hh0
      · intro i hi
        simp only [List.cons_append, List.tail_cons] at hi ⊢
        rcases List.mem_append.mp hi with hi | hi
        · exact hht i hi
        · simp at hi
          rw [hi]
          exact hx

theorem inv_NewIndex (r : Reservation) (idx : IndexNumber) (expTime : Int)
    (minBW maxBW allocBW : Nat) (h : ResInv r) :
    ResInv (NewIndex r idx expTime minBW maxBW allocBW).1 := by
  unfold NewIndex addIndex
  split
  · rcases h with ⟨ha, hn⟩ | ⟨ha, hh⟩
    · exact Or.inl ⟨ha, noActive_append _ _ hn (by simp)⟩
    · exact Or.inr ⟨ha, headActive_append _ _ hh (by simp)⟩
  · exact h

theorem noActive_setState_of (l : List Index) (n : Nat) (s : IndexState)
    (hn : noActive l) (hs : s ≠ IndexActive) : noActive (setState l n s) := by
  intro i hi
  rcases mem_setState hi with hi | hi
  · exact hn i hi
  · rw [hi]
    exact hs

theorem inv_SetIndexConfirmed (r : Reservation) (idx : IndexNumber)
    (h : ResInv r) : ResInv (SetIndexConfirmed r idx).1 := by
  cases hfi : FindIndex r.Indices idx with
  | none => simp only [SetIndexConfirmed, hfi]; exact h
  | some p =>
      simp only [SetIndexConfirmed, hfi]
      by_cases hst : stateAt r.Indices p = some IndexActive
      · rw [if_pos hst]
        exact h
      · rw [if_neg hst]
        rcases h with ⟨ha, hn⟩ | ⟨ha, hh⟩
        · exact Or.inl ⟨ha, noActive_setState_of _ _ _ hn (by simp)⟩
        · refine Or.inr ⟨ha, ?_, ?_⟩
          · have hp0 : p ≠ 0 := by
              intro hp
              rw [hp] at hst
              exact hst hh.1
            have := get?_setState_other r.Indices p 0 IndexPending (Ne.symm hp0)
            simp only [stateAt, this]
            exact hh.1
          · cases hp : p with
            | zero =>
                exact absurd (hp ▸ hst) (fun hc => hc hh.1)
            | succ n =>
                rw [tail_setState_succ]
                intro i hi
                rcases mem_setState hi with hi | hi
                · exact hh.2 i hi
                · rw [hi]
                  simp

theorem mem_drop_succ_tail {i : Index} :
    ∀ (l : List Index) (n : Nat), i ∈ l.drop (n + 1) → i ∈ l.tail
  | [], _, h => by simp at h
  | x :: t, n, h => by
      rw [List.drop_succ_cons] at h
      exact List.drop_subset _ _ h

theorem tail_setState_zero (l : List Index) (s : IndexState) :
    (setState l 0 s).tail = l.tail := by
  cases l <;> rfl

theorem inv_SetIndexActive (r : Reservation) (idx : IndexNumber)
    (h : ResInv r) : ResInv (SetIndexActive r idx).1 := by
  cases hfi : FindIndex r.Indices idx with
  | none =>
      simp only [SetIndexActive, hfi]
      exact h
  | some p =>
      simp only [SetIndexActive, hfi]
      by_cases h1 : r.activeIndex = (p : Int)
      · rw [if_pos h1]
        exact h
      · rw [if_neg h1]
        by_cases h2 : stateAt r.Indices p ≠ some IndexPending ∧
            stateAt r.Indices p ≠ some IndexActive
        · rw [if_pos h2]
          exact h
        · rw [if_neg h2]
          by_cases h3 : r.activeIndex > -1 ∧ r.activeIndex > (p : Int)
          · rw [if_pos h3]
            exact h
          · rw [if_neg h3]
            rcases findIndex_get hfi with ⟨a, hget, hidx⟩
            have h0 : (r.Indices.drop p).get? 0 = some a := by
              rw [List.get?_drop]
              simpa using hget
            refine Or.inr ⟨rfl, ?_, ?_⟩
            · simp only [stateAt, get?_setState_self, h0, Option.map_some']
            · rw [tail_setState_zero, List.tail_drop]
              rcases h with ⟨ha, hn⟩ | ⟨ha, hh⟩
              · intro i hi
                exact hn i (List.drop_subset _ _ hi)
              · intro i hi
                exact hh.2 i (mem_drop_succ_tail _ _ hi)

theorem inv_SetIndexInactive (r : Reservation) (h : ResInv r) :
    ResInv (SetIndexInactive r) := by
  unfold SetIndexInactive
  by_cases h0 : r.activeIndex = 0
  · rw [if_pos h0]
    rcases h with ⟨ha, hn⟩ | ⟨ha, hh⟩
    · rw [ha] at h0
      exact absurd h0 (by decide)
    · left
      refine ⟨rfl, ?_⟩
      intro i hi
      cases hl : r.Indices with
      | nil => rw [hl] at hi; simp [setState] at hi
      | cons x t =>
          rw [hl] at hi
          simp only [setState] at hi
          rcases List.mem_cons.mp hi with hi' | hi'
          · rw [hi']
            simp
          · have h2 := hh.2
            rw [hl] at h2
            simp only [List.tail_cons] at h2
            exact h2 i hi'
  · rw [if_neg h0]
    exact h

theorem inv_RemoveIndex (r : Reservation) (idx : IndexNumber) (h : ResInv r) :
    ResInv (RemoveIndex r idx).1 := by
  cases hfi : FindIndex r.Indices idx with
  | none =>
      simp only [RemoveIndex, hfi]
      exact h
  | some p =>
      simp only [RemoveIndex, hfi]
      have hneg : ¬ (r.activeIndex > (p : Int)) := by
        rcases h with ⟨ha, _⟩ | ⟨ha, _⟩ <;> rw [ha] <;> omega
      rw [if_neg hneg]
      left
      refine ⟨rfl, ?_⟩
      intro i hi
      rcases h with ⟨ha, hn⟩ | ⟨ha, hh⟩
      · exact hn i (List.drop_subset _ _ hi)
      · exact hh.2 i (mem_drop_succ_tail _ _ hi)

/-- The reservation states reachable from `NewReservation` through any
sequence of the five mutators (with arbitrary arguments). -/
inductive Reaches : Reservation → Prop where
  | init (asid : Nat) : Reaches (NewReservation asid)
  | newIndex (r : Reservation) (idx : IndexNumber) (expTime : Int)
      (minBW maxBW allocBW : Nat) :
      Reaches r → Reaches (NewIndex r idx expTime minBW maxBW allocBW).1
  | setIndexConfirmed (r : Reservation) (idx : IndexNumber) :
      Reaches r → Reaches (SetIndexConfirmed r idx).1
  | setIndexActive (r : Reservation) (idx : IndexNumber) :
      Reaches r → Reaches (SetIndexActive r idx).1
  | setIndexInactive (r : Reservation) :
      Reaches r → Reaches (SetIndexInactive r)
  | removeIndex (r : Reservation) (idx : IndexNumber) :
      Reaches r → Reaches (RemoveIndex r idx).1

theorem inv_of_reaches {r : Reservation} (h : Reaches r) : ResInv r := by
  induction h with
  | init asid => exact inv_NewReservation asid
  | newIndex r idx expTime minBW maxBW allocBW _ ih =>
      exact inv_NewIndex r idx expTime minBW maxBW allocBW ih
  | setIndexConfirmed r idx _ ih => exact inv_SetIndexConfirmed r idx ih
  | setIndexActive r idx _ ih => exact inv_SetIndexActive r idx ih
  | setIndexInactive r _ ih => exact inv_SetIndexInactive r ih
  | removeIndex r idx _ ih => exact inv_RemoveIndex r idx ih

/-- Number of indices in the list whose state is Active. -/
def countActive (l : List Index) : Nat :=
  l.countP (fun i => decide (i.State = IndexActive))

theorem countActive_eq_zero {l : List Index} (h : noActive l) :
    countActive l = 0 := by
  unfold countActive
  rw [List.countP_eq_zero]
  intro a ha
  simpa using h a ha

theorem countActive_le_one_of_inv {r : Reservation} (h : ResInv r) :
    countActive r.Indices ≤ 1 := by
  rcases h with ⟨_, hn⟩ | ⟨_, hh⟩
  · rw [countActive_eq_zero hn]
    omega
  · cases hl : r.Indices with
    | nil => simp [countActive]
    | cons x t =>
        have h2 := hh.2
        rw [hl] at h2
        simp only [List.tail_cons] at h2
        unfold countActive
        rw [List.countP_cons]
        have : t.countP (fun i => decide (i.State = IndexActive)) = 0 := by
          rw [List.countP_eq_zero]
          intro a ha
          simpa using h2 a ha
        rw [this]
        split <;> omega

/-- Claim C2: every reservation state reachable from `NewReservation` by
any sequence of the mutators `NewIndex`, `SetIndexConfirmed`,
`SetIndexActive`, `SetIndexInactive` and `RemoveIndex` satisfies:
`activeIndex` is either -1 or 0, and at most one index in the list has
state Active. -/
theorem c2_reachable_states_single_active (r : Reservation) (h : Reaches r) :
    (r.activeIndex = -1 ∨ r.activeIndex = 0) ∧ countActive r.Indices ≤ 1 := by
  have hi := inv_of_reaches h
  refine ⟨?_, countActive_le_one_of_inv hi⟩
  rcases hi with ⟨ha, _⟩ | ⟨ha, _⟩
  · exact Or.inl ha
  · exact Or.inr ha

/-- Witness for C2 at a concrete mutator sequence: create a reservation,
add index 0, confirm it and activate it. -/
theorem c2_reachable_states_single_active_witness :
    (((SetIndexActive
        ((SetIndexConfirmed ((NewIndex (NewReservation 1) 0 100 1 3 2).1) 0).1)
        0).1).activeIndex = -1 ∨
      ((SetIndexActive
        ((SetIndexConfirmed ((NewIndex (NewReservation 1) 0 100 1 3 2).1) 0).1)
        0).1).activeIndex = 0) ∧
    countActive ((SetIndexActive
        ((SetIndexConfirmed ((NewIndex (NewReservation 1) 0 100 1 3 2).1) 0).1)
        0).1).Indices ≤ 1 :=
  c2_reachable_states_single_active _
    (Reaches.setIndexActive _ 0
      (Reaches.setIndexConfirmed _ 0
        (Reaches.newIndex _ 0 100 1 3 2 (Reaches.init 1))))

/-- Claim C3: if a reservation has an active index and `SetIndexActive` is
called for an index at a strictly earlier slice position than the active
one, the call returns an error and the reservation is unchanged (same
index list, same states, same `activeIndex`). -/
theorem c3_activate_past_index_rejected (r : Reservation) (k : IndexNumber)
    (p : Nat) (hactive : 0 ≤ r.activeIndex)
    (hf : FindIndex r.Indices k = some p)
    (hlt : (p : Int) < r.activeIndex) :
    (SetIndexActive r k).1 = r ∧ ((SetIndexActive r k).2).isSome = true := by
  simp only [SetIndexActive, hf]
  have h1 : ¬ (r.activeIndex = (p : Int)) := by omega
  rw [if_neg h1]
  by_cases h2 : stateAt r.Indices p ≠ some IndexPending ∧
      stateAt r.Indices p ≠ some IndexActive
  · rw [if_pos h2]
    exact ⟨rfl, rfl⟩
  · rw [if_neg h2]
    have h3 : r.activeIndex > -1 ∧ r.activeIndex > (p : Int) :=
      ⟨by omega, by omega⟩
    rw [if_pos h3]
    exact ⟨rfl, rfl⟩

/-- A reservation whose active index sits at position 1, as it can be
reconstructed from the database, used to exercise the past-index guard. -/
def c3_rsv : Reservation :=
  { ASID := 1,
    Indices := [⟨0, 100, IndexPending, 1, 3, 2⟩, ⟨1, 100, IndexActive, 1, 3, 2⟩],
    activeIndex := 1, PathType := 0, TrafficSplit := 0, PathEndProps := 0,
    Steps := [] }

/-- Witness for C3: activating index number 0 (slice position 0) while the
active index sits at slice position 1 errors and leaves the reservation
untouched. -/
theorem c3_activate_past_index_rejected_witness :
    (SetIndexActive c3_rsv 0).1 = c3_rsv ∧
      ((SetIndexActive c3_rsv 0).2).isSome = true :=
  c3_activate_past_index_rejected c3_rsv 0 0 (by decide) (by decide) (by decide)

theorem index_eta_state (a : Index) (s : IndexState) (h : a.State = s) :
    { a with State := s } = a := by
  cases a
  simp only at h
  subst h
  rfl

/-- The full success specification of `SetIndexActive`: under the standing
invariant, activating a Pending-or-Active index at slice position `p` not
before the active one succeeds, prunes the first `p` indices and leaves
the activated index first. -/
theorem setIndexActive_success_spec (r : Reservation)
    (k : IndexNumber) (p : Nat)
    (hv : r.activeIndex = -1 ∨
      (r.activeIndex = 0 ∧ stateAt r.Indices 0 = some IndexActive))
    (hf : FindIndex r.Indices k = some p)
    (hs : stateAt r.Indices p = some IndexPending ∨
      stateAt r.Indices p = some IndexActive)
    (hle : r.activeIndex ≠ -1 → r.activeIndex ≤ (p : Int)) :
    (SetIndexActive r k).2 = none ∧
    (SetIndexActive r k).1.activeIndex = 0 ∧
    (SetIndexActive r k).1.Indices.length + p = r.Indices.length ∧
    (∀ i : Nat, 1 ≤ i →
      (SetIndexActive r k).1.Indices.get? i = r.Indices.get? (p + i)) ∧
    (∃ a, r.Indices.get? p = some a ∧ a.Idx = k ∧
      (SetIndexActive r k).1.Indices.get? 0 =
        some { a with State := IndexActive }) := by
  rcases findIndex_get hf with ⟨a, hget, hak⟩
  have hplt := findIndex_lt hf
  simp only [SetIndexActive, hf]
  by_cases h1 : r.activeIndex = (p : Int)
  · rw [if_pos h1]
    rcases hv with hv1 | ⟨hv0, hvA⟩
    · exfalso
      rw [hv1] at h1
      omega
    · have hp0 : p = 0 := by
        rw [hv0] at h1
        omega
      subst hp0
      refine ⟨rfl, hv0, by simp, ?_, ?_⟩
      · intro i _
        rw [Nat.zero_add]
      · refine ⟨a, hget, hak, ?_⟩
        have haA : a.State = IndexActive := by
          simp only [stateAt, hget, Option.map_some'] at hvA
          exact Option.some.inj hvA
        rw [hget, index_eta_state a IndexActive haA]
  · rw [if_neg h1]
    have h2 : ¬ (stateAt r.Indices p ≠ some IndexPending ∧
        stateAt r.Indices p ≠ some IndexActive) := by
      rcases hs with hs | hs
      · intro hc
        exact hc.1 hs
      · intro hc
        exact hc.2 hs
    rw [if_neg h2]
    have h3 : ¬ (r.activeIndex > -1 ∧ r.activeIndex > (p : Int)) := by
      rintro ⟨hg, hgt⟩
      have := hle (by omega)
      omega
    rw [if_neg h3]
    refine ⟨rfl, rfl, ?_, ?_, ?_⟩
    · rw [length_setState, List.length_drop]
      omega
    · intro i hi
      rw [get?_setState_other _ 0 i _ (by omega), List.get?_drop]
    · refine ⟨a, hget, hak, ?_⟩
      rw [get?_setState_self]
      have h0 : (r.Indices.drop p).get? 0 = some a := by
        rw [List.get?_drop]
        simpa using hget
      rw [h0, Option.map_some']

/-- Claim C1: for a reservation whose index list contains an index
numbered `k` at slice position `p` with state Pending or Active, and whose
active index (if any) sits at a position at most `p`, `SetIndexActive k`
succeeds; afterwards the index list equals the suffix of the previous list
starting at position `p` (with its first element flipped to Active), the
activated index (number `k`) sits at position 0 with state Active and
`activeIndex = 0`.  Hypothesis `hv` is the spec's standing invariant tying
`activeIndex` to the list; it holds in every reachable state
(`inv_of_reaches`). -/
theorem c1_setIndexActive_prunes_and_activates (r : Reservation)
    (k : IndexNumber) (p : Nat)
    (hv : r.activeIndex = -1 ∨
      (r.activeIndex = 0 ∧ stateAt r.Indices 0 = some IndexActive))
    (hf : FindIndex r.Indices k = some p)
    (hs : stateAt r.Indices p = some IndexPending ∨
      stateAt r.Indices p = some IndexActive)
    (hle : r.activeIndex ≠ -1 → r.activeIndex ≤ (p : Int)) :
    (SetIndexActive r k).2 = none ∧
    (SetIndexActive r k).1.activeIndex = 0 ∧
    (SetIndexActive r k).1.Indices.length + p = r.Indices.length ∧
    (∀ i : Nat, 1 ≤ i →
      (SetIndexActive r k).1.Indices.get? i = r.Indices.get? (p + i)) ∧
    (∃ a, r.Indices.get? p = some a ∧ a.Idx = k ∧
      (SetIndexActive r k).1.Indices.get? 0 =
        some { a with State := IndexActive }) :=
  setIndexActive_success_spec r k p hv hf hs hle

/-- A reservation with an Active index at position 0 and a Pending index
at position 1, used to exercise activation with pruning. -/
def c1_rsv : Reservation :=
  { ASID := 1,
    Indices := [⟨0, 100, IndexActive, 1, 3, 2⟩, ⟨1, 100, IndexPending, 1, 3, 2⟩],
    activeIndex := 0, PathType := 0, TrafficSplit := 0, PathEndProps := 0,
    Steps := [] }

/-- Witness for C1: activating the Pending index numbered 1 at slice
position 1 succeeds, prunes position 0 and leaves `activeIndex = 0`. -/
theorem c1_setIndexActive_prunes_and_activates_witness :
    (SetIndexActive c1_rsv 1).2 = none ∧
    (SetIndexActive c1_rsv 1).1.activeIndex = 0 ∧
    (SetIndexActive c1_rsv 1).1.Indices.length + 1 = c1_rsv.Indices.length :=
  have h := c1_setIndexActive_prunes_and_activates c1_rsv 1 1
    (Or.inr ⟨rfl, rfl⟩) (by decide) (Or.inl (by decide)) (fun _ => by decide)
  ⟨h.1, h.2.1, h.2.2.1⟩

theorem length_SetIndexInactive (s : Reservation) :
    (SetIndexInactive s).Indices.length = s.Indices.length := by
  unfold SetIndexInactive
  by_cases h0 : s.activeIndex = 0
  · rw [if_pos h0]
    exact length_setState s.Indices 0 IndexPending
  · rw [if_neg h0]

theorem get?_SetIndexInactive (s : Reservation) (i : Nat) (hi : 1 ≤ i) :
    (SetIndexInactive s).Indices.get? i = s.Indices.get? i := by
  unfold SetIndexInactive
  by_cases h0 : s.activeIndex = 0
  · rw [if_pos h0]
    exact get?_setState_other s.Indices 0 i IndexPending (by omega)
  · rw [if_neg h0]

theorem map_idx_setState :
    ∀ (l : List Index) (n : Nat) (s : IndexState),
      (setState l n s).map Index.Idx = l.map Index.Idx
  | [], _, _ => rfl
  | i :: rest, 0, s => by simp [setState]
  | i :: rest, n + 1, s => by
      simp [setState, map_idx_setState rest n s]

theorem mapIdx_SetIndexInactive (s : Reservation) :
    (SetIndexInactive s).Indices.map Index.Idx = s.Indices.map Index.Idx := by
  unfold SetIndexInactive
  by_cases h0 : s.activeIndex = 0
  · rw [if_pos h0]
    exact map_idx_setState s.Indices 0 IndexPending
  · rw [if_neg h0]

/-- Claim C10: `SetIndexInactive` only flips the index at position 0 back
to Pending and clears `activeIndex`; it keeps the list length, every
position other than 0 and all index numbers, so it cannot restore indices
pruned by a preceding `SetIndexActive`.  Consequently, when the keeper's
`activateIndex` rolls back after an RPC failure and the activated index
was at slice position `p ≥ 1`, the index list after the rollback is
shorter than — hence different from — the pre-activation list. -/
theorem c10_rollback_keeps_pruned_indices (r : Reservation) (nxt : Index)
    (p : Nat)
    (hv : r.activeIndex = -1 ∨
      (r.activeIndex = 0 ∧ stateAt r.Indices 0 = some IndexActive))
    (hn : NextIndexToActivate r = some nxt)
    (hf : FindIndex r.Indices nxt.Idx = some p)
    (hp : 1 ≤ p)
    (hs : stateAt r.Indices p = some IndexPending) :
    (∀ s : Reservation,
      (SetIndexInactive s).Indices.length = s.Indices.length ∧
      (∀ i : Nat, 1 ≤ i →
        (SetIndexInactive s).Indices.get? i = s.Indices.get? i) ∧
      (SetIndexInactive s).Indices.map Index.Idx = s.Indices.map Index.Idx) ∧
    ((activateIndex true r).2).isSome = true ∧
    (activateIndex true r).1.Indices.length + p = r.Indices.length ∧
    (activateIndex true r).1.Indices ≠ r.Indices := by
  refine ⟨fun s => ⟨length_SetIndexInactive s,
    fun i hi => get?_SetIndexInactive s i hi, mapIdx_SetIndexInactive s⟩, ?_⟩
  have hle : r.activeIndex ≠ -1 → r.activeIndex ≤ (p : Int) := by
    intro hne
    rcases hv with h | ⟨h, _⟩
    · exact absurd h hne
    · rw [h]
      omega
  obtain ⟨he, hact, hlen, _, _⟩ :=
    setIndexActive_success_spec r nxt.Idx p hv hf (Or.inl hs) hle
  cases hSA : SetIndexActive r nxt.Idx with
  | mk r1 e =>
      rw [hSA] at he hlen
      simp only at he hlen
      subst he
      simp only [activateIndex, hn, hSA, if_true]
      refine ⟨rfl, ?_, ?_⟩
      · rw [length_SetIndexInactive]
        exact hlen
      · intro hc
        have hlc := congrArg List.length hc
        rw [length_SetIndexInactive] at hlc
        omega

/-- A reservation with an Active index at position 0 and a Pending index
at position 1, for the rollback scenario. -/
def c10_rsv : Reservation :=
  { ASID := 1,
    Indices := [⟨0, 100, IndexActive, 1, 3, 2⟩, ⟨1, 100, IndexPending, 1, 3, 2⟩],
    activeIndex := 0, PathType := 0, TrafficSplit := 0, PathEndProps := 0,
    Steps := [] }

/-- Witness for C10: after a failed activation RPC for the index at slice
position 1, the rolled-back index list is one element shorter than the
pre-activation list. -/
theorem c10_rollback_keeps_pruned_indices_witness :
    ((activateIndex true c10_rsv).2).isSome = true ∧
    (activateIndex true c10_rsv).1.Indices.length + 1 =
      c10_rsv.Indices.length ∧
    (activateIndex true c10_rsv).1.Indices ≠ c10_rsv.Indices :=
  have h := c10_rollback_keeps_pruned_indices c10_rsv
    ⟨1, 100, IndexPending, 1, 3, 2⟩ 1 (Or.inr ⟨rfl, rfl⟩) (by decide)
    (by decide) (by decide) (by decide)
  ⟨h.2.1, h.2.2.1, h.2.2.2⟩

/-- The next index to activate as claim C4 words it: the first Pending
index strictly after the active one; the last index when no index is
active; none when no such index exists. -/
def nextIndexToActivateClaim (r : Reservation) : Option Index :=
  if r.activeIndex < 0 then r.Indices.getLast?
  else (r.Indices.drop (r.activeIndex.toNat + 1)).find?
    (fun i => decide (i.State = IndexPending))

/-- A reachable reservation (activate index 0, then add a new Temporary
index 1) on which the code and claim C4 disagree. -/
def c4_rsv : Reservation :=
  { ASID := 1,
    Indices := [⟨0, 100, IndexActive, 1, 3, 2⟩, ⟨1, 100, IndexTemporary, 1, 3, 2⟩],
    activeIndex := 0, PathType := 0, TrafficSplit := 0, PathEndProps := 0,
    Steps := [] }

/-- Counterexample to C4 as stated: with an Active index at position 0 and
a Temporary index at position 1, the code returns the Temporary index
(position `activeIndex + 1`, not Pending), while the claim demands the
first Pending index after the active one — of which there is none. -/
theorem c4_nextIndexToActivate_counterexample :
    NextIndexToActivate c4_rsv = some ⟨1, 100, IndexTemporary, 1, 3, 2⟩ ∧
    nextIndexToActivateClaim c4_rsv = none ∧
    NextIndexToActivate c4_rsv ≠ nextIndexToActivateClaim c4_rsv := by
  refine ⟨rfl, rfl, ?_⟩
  intro h
  simp [nextIndexToActivateClaim, c4_rsv, NextIndexToActivate] at h

/-- Claim C4 (amended): `NextIndexToActivate` returns the last index when
no index is active; otherwise the index at the position immediately after
the active one regardless of its state, none when no such position exists;
and none on an empty index list. -/
theorem c4_nextIndexToActivate_amended (r : Reservation) :
    NextIndexToActivate r =
      if r.activeIndex < 0 then r.Indices.getLast?
      else r.Indices.get? (r.activeIndex.toNat + 1) := by
  unfold NextIndexToActivate
  split_ifs with h1 h2 h3 h4
  · rw [List.length_eq_zero.mp h1]
    rfl
  · rw [List.length_eq_zero.mp h1]
    rfl
  · exact (List.getLast?_eq_get? r.Indices).symm
  · congr 1
    omega
  · symm
    rw [List.get?_eq_none]
    omega

/-- Claim C8: `NextIndexToRenew` returns 0 on an empty index list and
otherwise the last index's number plus one modulo 16 (so 0 again when the
last index is numbered 15). -/
theorem c8_nextIndexToRenew_ring (r : Reservation) :
    (r.Indices = [] → NextIndexToRenew r = 0) ∧
    (∀ a, r.Indices.getLast? = some a →
      NextIndexToRenew r = (a.Idx + 1) % 16) := by
  constructor
  · intro h
    unfold NextIndexToRenew
    rw [h]
    rfl
  · intro a ha
    unfold NextIndexToRenew
    rw [ha]
    rfl

/-- A reservation whose single index is numbered 15, for the ring wrap. -/
def c8_rsv : Reservation :=
  { ASID := 1, Indices := [⟨15, 100, IndexPending, 1, 3, 2⟩],
    activeIndex := -1, PathType := 0, TrafficSplit := 0, PathEndProps := 0,
    Steps := [] }

/-- Witness for C8: the empty list yields 0 and a last index numbered 15
wraps around to 0. -/
theorem c8_nextIndexToRenew_ring_witness :
    NextIndexToRenew (NewReservation 1) = 0 ∧ NextIndexToRenew c8_rsv = 0 :=
  ⟨(c8_nextIndexToRenew_ring (NewReservation 1)).1 rfl,
   ((c8_nextIndexToRenew_ring c8_rsv).2 ⟨15, 100, IndexPending, 1, 3, 2⟩
      (by decide)).trans (by decide)⟩

theorem findCompatibleFrom_cons (r : Reservation) (c : Configuration)
    (rest : List Configuration) (n : Nat) :
    findCompatibleFrom r n (c :: rest) =
      if compatibleB r c = true then some n
      else findCompatibleFrom r (n + 1) rest := by
  rw [findCompatibleFrom]
  by_cases h1 : DstIA r.Steps = c.dst
  · rw [if_neg (not_not_intro h1)]
    by_cases h2 : r.PathType = c.pathType
    · rw [if_neg (not_not_intro h2)]
      by_cases h3 : r.TrafficSplit = c.splitCls
      · rw [if_neg (not_not_intro h3)]
        by_cases h4 : r.PathEndProps = c.endProps
        · rw [if_neg (not_not_intro h4)]
          by_cases h5 : c.evalInterfaces (Interfaces r.Steps) = true
          · rw [if_neg (not_not_intro h5),
                if_pos (by simp [compatibleB, h1, h2, h3, h4, h5])]
          · rw [if_pos h5, if_neg (by simp [compatibleB, h5])]
        · rw [if_pos h4, if_neg (by simp [compatibleB, h4])]
      · rw [if_pos h3, if_neg (by simp [compatibleB, h3])]
    · rw [if_pos h2, if_neg (by simp [compatibleB, h2])]
  · rw [if_pos h1, if_neg (by simp [compatibleB, h1])]

theorem findCompatibleFrom_spec (r : Reservation) :
    ∀ (cs : List Configuration) (n i : Nat),
      findCompatibleFrom r n cs = some i →
        n ≤ i ∧ ∃ c, cs.get? (i - n) = some c ∧ compatibleB r c = true ∧
          ∀ j, j < i - n → ∀ cj, cs.get? j = some cj →
            compatibleB r cj = false := by
  intro cs
  induction cs with
  | nil => intro n i h; simp [findCompatibleFrom] at h
  | cons c rest ih =>
      intro n i h
      rw [findCompatibleFrom_cons] at h
      by_cases hc : compatibleB r c = true
      · rw [if_pos hc] at h
        cases h
        refine ⟨Nat.le_refl n, c, by simp, hc, ?_⟩
        intro j hj cj _
        exact absurd hj (by omega)
      · rw [if_neg hc] at h
        rcases ih (n + 1) i h with ⟨hni, c', hc', hcomp, hmin⟩
        have hin : i - n = (i - (n + 1)) + 1 := by omega
        refine ⟨by omega, c', ?_, hcomp, ?_⟩
        · rw [hin, List.get?_cons_succ]
          exact hc'
        · intro j hj cj hcj
          cases j with
          | zero =>
              simp only [List.get?_cons_zero] at hcj
              cases hcj
              exact Bool.eq_false_iff.mpr hc
          | succ j' =>
              simp only [List.get?_cons_succ] at hcj
              rw [hin] at hj
              exact hmin j' (by omega) cj hcj

theorem perm_get_cons_eraseIdx {α : Type} :
    ∀ (l : List α) (i : Nat) (c : α),
      l.get? i = some c → l.Perm (c :: l.eraseIdx i)
  | [], i, c, h => by simp at h
  | x :: t, 0, c, h => by
      simp only [List.get?_cons_zero] at h
      cases h
      simp [List.eraseIdx]
  | x :: t, i + 1, c, h => by
      simp only [List.get?_cons_succ] at h
      have hperm := perm_get_cons_eraseIdx t i c h
      simp only [List.eraseIdx_cons_succ]
      exact (hperm.cons x).trans (List.Perm.swap c x (t.eraseIdx i))

theorem matchRsvs_perm :
    ∀ (rsvs : List Reservation) (confs : List Configuration),
      ((matchRsvsWithConfiguration rsvs confs).map Entry.conf).Perm confs
  | [], confs => by
      simp only [matchRsvsWithConfiguration, List.map_map]
      have hid : (Entry.conf ∘ fun c => ({ conf := c, rsv := none } : Entry)) = id := rfl
      rw [hid, List.map_id]
  | r :: rs, confs => by
      cases hfc : findCompatibleConfiguration r confs with
      | none =>
          simp only [matchRsvsWithConfiguration, hfc]
          exact matchRsvs_perm rs confs
      | some i =>
          cases hg : confs.get? i with
          | none =>
              simp only [matchRsvsWithConfiguration, hfc, hg]
              exact matchRsvs_perm rs confs
          | some c =>
              simp only [matchRsvsWithConfiguration, hfc, hg, List.map_cons]
              have h1 := matchRsvs_perm rs (confs.eraseIdx i)
              have h2 := perm_get_cons_eraseIdx confs i c hg
              exact (h1.cons c).trans h2.symm

theorem matchRsvs_paired_compatible :
    ∀ (rsvs : List Reservation) (confs : List Configuration),
      ∀ e ∈ matchRsvsWithConfiguration rsvs confs,
        ∀ rr, e.rsv = some rr → compatibleB rr e.conf = true
  | [], confs => by
      intro e he rr hrr
      simp only [matchRsvsWithConfiguration, List.mem_map] at he
      rcases he with ⟨c, _, rfl⟩
      simp at hrr
  | r :: rs, confs => by
      intro e he rr hrr
      cases hfc : findCompatibleConfiguration r confs with
      | none =>
          simp only [matchRsvsWithConfiguration, hfc] at he
          exact matchRsvs_paired_compatible rs confs e he rr hrr
      | some i =>
          cases hg : confs.get? i with
          | none =>
              simp only [matchRsvsWithConfiguration, hfc, hg] at he
              exact matchRsvs_paired_compatible rs confs e he rr hrr
          | some c =>
              simp only [matchRsvsWithConfiguration, hfc, hg] at he
              rcases List.mem_cons.mp he with he | he
              · subst he
                simp only at hrr
                cases hrr
                rcases findCompatibleFrom_spec r confs 0 i hfc with
                  ⟨_, c', hc', hcomp, _⟩
                rw [Nat.sub_zero] at hc'
                rw [hg] at hc'
                cases hc'
                exact hcomp
              · exact matchRsvs_paired_compatible rs (confs.eraseIdx i) e he rr hrr

/-- Claim C5: `matchRsvsWithConfiguration` returns exactly one entry per
input configuration (the entry multiset of configurations is a permutation
of the input, so none is claimed twice); reservations are processed in
order and each is paired with the first still-unclaimed compatible
configuration (`findCompatibleConfiguration` returns the smallest
compatible position); every paired entry is compatible, and unclaimed
configurations yield entries with no reservation (they make up the rest of
the permutation). -/
theorem c5_match_one_entry_per_configuration (rsvs : List Reservation)
    (confs : List Configuration) :
    (matchRsvsWithConfiguration rsvs confs).length = confs.length ∧
    ((matchRsvsWithConfiguration rsvs confs).map Entry.conf).Perm confs ∧
    (∀ (r : Reservation) (cs : List Configuration) (i : Nat),
      findCompatibleConfiguration r cs = some i →
        ∃ c, cs.get? i = some c ∧ compatibleB r c = true ∧
          ∀ j, j < i → ∀ cj, cs.get? j = some cj →
            compatibleB r cj = false) ∧
    (∀ e ∈ matchRsvsWithConfiguration rsvs confs,
      ∀ rr, e.rsv = some rr → compatibleB rr e.conf = true) := by
  have hperm := matchRsvs_perm rsvs confs
  refine ⟨?_, hperm, ?_, matchRsvs_paired_compatible rsvs confs⟩
  · have := hperm.length_eq
    rw [List.length_map] at this
    exact this
  · intro r cs i hf
    rcases findCompatibleFrom_spec r cs 0 i hf with ⟨_, c, hc, hcomp, hmin⟩
    rw [Nat.sub_zero] at hc hmin
    exact ⟨c, hc, hcomp, hmin⟩

/-- A concrete reservation for the matching scenario: destination IA 22,
path type 7, split 2, end properties 3. -/
def c5_rsv : Reservation :=
  { ASID := 1, Indices := [], activeIndex := -1, PathType := 7,
    TrafficSplit := 2, PathEndProps := 3,
    Steps := [⟨0, 5, 11⟩, ⟨6, 0, 22⟩] }

/-- A configuration incompatible with `c5_rsv` (wrong destination). -/
def c5_conf_bad : Configuration :=
  { dst := 99, pathType := 7, evalInterfaces := fun _ => true,
    evalPath := fun _ => true, minBW := 1, maxBW := 3, splitCls := 2,
    endProps := 3 }

/-- A configuration compatible with `c5_rsv`. -/
def c5_conf_good : Configuration :=
  { dst := 22, pathType := 7, evalInterfaces := fun _ => true,
    evalPath := fun _ => true, minBW := 1, maxBW := 3, splitCls := 2,
    endProps := 3 }

/-- Witness for C5 at concrete inputs: one reservation and two
configurations give exactly two entries whose configuration multiset is
the input, and the greedy search passed over the first (incompatible)
configuration to claim the second. -/
theorem c5_match_one_entry_per_configuration_witness :
    (matchRsvsWithConfiguration [c5_rsv] [c5_conf_bad, c5_conf_good]).length = 2 ∧
    ((matchRsvsWithConfiguration [c5_rsv]
        [c5_conf_bad, c5_conf_good]).map Entry.conf).Perm
      [c5_conf_bad, c5_conf_good] ∧
    compatibleB c5_rsv c5_conf_good = true ∧
    compatibleB c5_rsv c5_conf_bad = false := by
  have h := c5_match_one_entry_per_configuration [c5_rsv] [c5_conf_bad, c5_conf_good]
  refine ⟨h.1, h.2.1, ?_, ?_⟩
  · rcases h.2.2.1 c5_rsv [c5_conf_bad, c5_conf_good] 1 rfl with ⟨c, hc, hcomp, _⟩
    simp only [List.get?_cons_succ, List.get?_cons_zero] at hc
    cases hc
    exact hcomp
  · rcases h.2.2.1 c5_rsv [c5_conf_bad, c5_conf_good] 1 rfl with ⟨c, hc, _, hmin⟩
    exact hmin 0 (by omega) c5_conf_bad rfl

theorem filterMap_id_nil_iff (errs : List (Option String)) :
    errs.filterMap (fun e => e) = [] ↔ errs.all (fun e => e.isNone) = true := by
  rw [List.filterMap_eq_nil, List.all_eq_true]
  constructor
  · intro h e he
    rw [Option.isNone_iff_eq_none]
    exact h e he
  · intro h e he
    rw [← Option.isNone_iff_eq_none]
    exact h e he

theorem foldr_min_swap :
    ∀ (ts : List Int) (a b : Int),
      ts.foldr min (min a b) = min b (ts.foldr min a)
  | [], a, b => by
      rw [List.foldr_nil, List.foldr_nil, min_comm]
  | t :: ts, a, b => by
      simp only [List.foldr_cons]
      rw [foldr_min_swap ts a b]
      exact min_left_comm t b _

theorem foldl_min_eq :
    ∀ (ts : List Int) (a : Int),
      ts.foldl (fun w t => if t < w then t else w) a = ts.foldr min a
  | [], _ => rfl
  | t :: ts, a => by
      simp only [List.foldl_cons, List.foldr_cons]
      rw [foldl_min_eq ts (if t < a then t else a)]
      have hmin : (if t < a then t else a) = min a t := by
        split_ifs with h
        · exact (min_eq_right h.le).symm
        · exact (min_eq_left (by omega)).symm
      rw [hmin]
      exact foldr_min_swap ts a t

theorem foldr_min_le_init :
    ∀ (ts : List Int) (a : Int), ts.foldr min a ≤ a
  | [], a => le_refl a
  | t :: ts, a => by
      simp only [List.foldr_cons]
      exact le_trans (min_le_right _ _) (foldr_min_le_init ts a)

/-- Claim C6: `OneShot` returns `now + sleepAtLeast` together with the
coalesced error when any per-entry slot holds an error; otherwise it
returns the minimum of the per-entry wake-up times clamped into the
closed interval [now + sleepAtLeast, now + sleepAtMost]; in particular it
returns `now + sleepAtMost` when there are no entries. -/
theorem c6_oneShot_wakeup (now : Int) (times : List Int)
    (errs : List (Option String)) :
    (errs.all (fun e => e.isNone) = false →
      ∃ m, OneShot now times errs = (now + sleepAtLeast, some m)) ∧
    (errs.all (fun e => e.isNone) = true →
      OneShot now times errs =
        (max (now + sleepAtLeast)
          (min (now + sleepAtMost) (times.foldr min (now + sleepAtMost))),
         none)) ∧
    OneShot now [] ([] : List (Option String)) = (now + sleepAtMost, none) := by
  refine ⟨?_, ?_, ?_⟩
  · intro hall
    cases hfm : errs.filterMap (fun e => e) with
    | nil =>
        rw [filterMap_id_nil_iff] at hfm
        rw [hfm] at hall
        cases hall
    | cons e es =>
        refine ⟨String.intercalate "; " (e :: es), ?_⟩
        simp only [OneShot, coalesce, hfm]
  · intro hall
    have hfm : errs.filterMap (fun e => e) = [] :=
      (filterMap_id_nil_iff errs).mpr hall
    simp only [OneShot, coalesce, hfm]
    rw [foldl_min_eq]
    have hle : times.foldr min (now + sleepAtMost) ≤ now + sleepAtMost :=
      foldr_min_le_init times (now + sleepAtMost)
    rw [min_eq_right hle]
    by_cases hcase : times.foldr min (now + sleepAtMost) - now < sleepAtLeast
    · rw [if_pos hcase, max_eq_left (by omega)]
    · rw [if_neg hcase, max_eq_right (by omega)]
  · rw [show OneShot now [] ([] : List (Option String)) =
        (if now + sleepAtMost - now < sleepAtLeast then (now + sleepAtLeast, none)
         else (now + sleepAtMost, none)) from rfl]
    rw [if_neg (by unfold sleepAtLeast sleepAtMost Minute Second; omega)]

/-- Witness for C6: an erroring entry forces a 4-second wake-up; two
healthy entries with wake-up times of 10 s and 20 s yield the 10-second
minimum after clamping. -/
theorem c6_oneShot_wakeup_witness :
    (OneShot 0 [10000000000] [some "boom"]).1 = 0 + sleepAtLeast ∧
    ((OneShot 0 [10000000000] [some "boom"]).2).isSome = true ∧
    OneShot 0 [10000000000, 20000000000] [none, none] =
      (10000000000, none) := by
  have h1 := (c6_oneShot_wakeup 0 [10000000000] [some "boom"]).1 (by rfl)
  have h2 := (c6_oneShot_wakeup 0 [10000000000, 20000000000]
    [none, none]).2.1 (by rfl)
  rcases h1 with ⟨m, hm⟩
  refine ⟨by rw [hm], by rw [hm]; rfl, ?_⟩
  rw [h2]
  decide

theorem askNewReservationLoop_spec
    (setup : SetupReq → Option Reservation × Option String)
    (c : Configuration) (now : Int) :
    ∀ ps : List SnetPath,
      (∀ p, ps.find? (fun q =>
          ((setup (PrepareSetupRequest c now
            (now + newIndexMinDuration) q)).1).isSome) = some p →
        askNewReservationLoop setup c now ps =
          setup (PrepareSetupRequest c now (now + newIndexMinDuration) p)) ∧
      (ps.find? (fun q =>
          ((setup (PrepareSetupRequest c now
            (now + newIndexMinDuration) q)).1).isSome) = none →
        (askNewReservationLoop setup c now ps).1 = none ∧
        ((askNewReservationLoop setup c now ps).2).isSome = true) := by
  intro ps
  induction ps with
  | nil =>
      constructor
      · intro p h
        simp at h
      · intro _
        exact ⟨rfl, rfl⟩
  | cons p ps ih =>
      cases hs : setup (PrepareSetupRequest c now (now + newIndexMinDuration) p) with
      | mk rsv err =>
          cases rsv with
          | some r =>
              have hpred : ((setup (PrepareSetupRequest c now
                  (now + newIndexMinDuration) p)).1).isSome = true := by
                rw [hs]
                rfl
              constructor
              · intro p' hfind
                simp only [List.find?_cons, hpred] at hfind
                cases hfind
                simp only [askNewReservationLoop, hs]
              · intro hfind
                simp only [List.find?_cons, hpred] at hfind
                cases hfind
          | none =>
              have hpred : ((setup (PrepareSetupRequest c now
                  (now + newIndexMinDuration) p)).1).isSome = false := by
                rw [hs]
                rfl
              constructor
              · intro p' hfind
                simp only [List.find?_cons, hpred] at hfind
                simp only [askNewReservationLoop, hs]
                exact ih.1 p' hfind
              · intro hfind
                simp only [List.find?_cons, hpred] at hfind
                simp only [askNewReservationLoop, hs]
                exact ih.2 hfind

/-- Claim C7: `askNewReservation` iterates the predicate-filtered candidate
paths in the router-returned order; every setup request carries index
number 0 and expiration `now + newIndexMinDuration`; the first request
whose reservation slot is non-nil wins and its reservation is returned
together with that request's error (even a non-nil one); when every path
fails, the call returns an error without a reservation.  The hypothesis is
the `Manager.SetupRequest` contract — a call that returns no error has
stored a reservation (the source panics otherwise), which confines the
theorem to the executions the source completes. -/
theorem c7_askNewReservation_first_success
    (setup : SetupReq → Option Reservation × Option String)
    (c : Configuration) (now : Int) (paths : List SnetPath)
    (hcontract : ∀ q, (setup q).2 = none → ((setup q).1).isSome = true) :
    (∀ p : SnetPath,
      (PrepareSetupRequest c now (now + newIndexMinDuration) p).index = 0 ∧
      (PrepareSetupRequest c now (now + newIndexMinDuration) p).expirationTime =
        now + newIndexMinDuration) ∧
    (∀ p, (paths.filter c.evalPath).find? (fun q =>
        ((setup (PrepareSetupRequest c now
          (now + newIndexMinDuration) q)).1).isSome) = some p →
      askNewReservation setup c now paths =
        setup (PrepareSetupRequest c now (now + newIndexMinDuration) p)) ∧
    ((paths.filter c.evalPath).find? (fun q =>
        ((setup (PrepareSetupRequest c now
          (now + newIndexMinDuration) q)).1).isSome) = none →
      (askNewReservation setup c now paths).1 = none ∧
      ((askNewReservation setup c now paths).2).isSome = true) := by
  refine ⟨fun p => ⟨rfl, rfl⟩, ?_, ?_⟩
  · intro p hf
    exact (askNewReservationLoop_spec setup c now (paths.filter c.evalPath)).1 p hf
  · intro hf
    exact (askNewReservationLoop_spec setup c now (paths.filter c.evalPath)).2 hf

/-- A configuration whose path predicate rejects path 3, for the setup
scenario. -/
def c7_conf : Configuration :=
  { dst := 0, pathType := 0, evalInterfaces := fun _ => true,
    evalPath := fun p => decide (p ≠ 3), minBW := 0, maxBW := 0,
    splitCls := 0, endProps := 0 }

/-- A `Manager.SetupRequest` collaborator that succeeds only on path 2. -/
def c7_setup : SetupReq → Option Reservation × Option String :=
  fun q =>
    if q.path = 2 then (some (NewReservation 3), none)
    else (none, some "setup failed")

/-- Witness for C7: with candidate paths [1, 2, 3], path 3 is filtered
out, path 1 fails, and the reservation created on path 2 is returned; the
request on path 2 carried index 0 and the 20-minute expiration. -/
theorem c7_askNewReservation_first_success_witness :
    askNewReservation c7_setup c7_conf 0 [1, 2, 3] =
      (some (NewReservation 3), none) ∧
    (PrepareSetupRequest c7_conf 0 (0 + newIndexMinDuration) 2).index = 0 ∧
    (PrepareSetupRequest c7_conf 0 (0 + newIndexMinDuration) 2).expirationTime =
      0 + newIndexMinDuration := by
  have hcontract : ∀ q, (c7_setup q).2 = none →
      ((c7_setup q).1).isSome = true := by
    intro q
    unfold c7_setup
    by_cases h : q.path = 2
    · rw [if_pos h]
      intro _
      rfl
    · rw [if_neg h]
      intro hc
      simp at hc
  have h := c7_askNewReservation_first_success c7_setup c7_conf 0 [1, 2, 3]
    hcontract
  refine ⟨?_, (h.1 2).1, (h.1 2).2⟩
  have h2 := h.2.1 2 (by rfl)
  exact h2.trans rfl

/-- A configuration with bandwidth range [10, 42] for the compliance
scenario. -/
def c9_conf : Configuration :=
  { dst := 0, pathType := 0, evalInterfaces := fun _ => true,
    evalPath := fun _ => true, minBW := 10, maxBW := 42, splitCls := 0,
    endProps := 0 }

/-- A reservation whose single Active index expires exactly at
`minDuration` past time 0. -/
def c9_rsv : Reservation :=
  { ASID := 1, Indices := [⟨0, minDuration, IndexActive, 10, 42, 20⟩],
    activeIndex := 0, PathType := 0, TrafficSplit := 0, PathEndProps := 0,
    Steps := [] }

/-- Counterexample to C9 as stated: the reservation is Compliant at time 0
(its only index is valid until exactly `0 + minDuration`), yet one second
later — well within `minDuration/2` — the index falls out of the
expiration filter and the classification flips to NeedsIndices. -/
theorem c9_compliance_counterexample :
    compliance c9_conf c9_rsv (0 + minDuration) = Compliant ∧
    (0 : Int) ≤ Second ∧ Second < minDuration / 2 ∧
    compliance c9_conf c9_rsv ((0 + Second) + minDuration) ≠ Compliant ∧
    compliance c9_conf c9_rsv ((0 + Second) + minDuration) = NeedsIndices := by
  refine ⟨by decide, by decide, by decide, by decide, by decide⟩

/-- Claim C9 (amended): compliance is preserved across a delay only as far
as the filtered indices' expirations reach: if `compliance(e, t +
minDuration)` is Compliant and no mutator runs, then for every
`0 ≤ delta < minDuration/2` such that every index passing the compliance
filter at time `t` remains valid until `t + minDuration + delta`, the
evaluation at `t + delta` is Compliant as well.  (As stated the claim
fails: an index valid until exactly `t + minDuration` leaves the filter
after any positive delay — see the counterexample.) -/
theorem c9_compliance_monotonic_amended (c : Configuration)
    (r : Reservation) (t delta : Int) (h0 : 0 ≤ delta)
    (hlt : delta < minDuration / 2)
    (hexp : ∀ i ∈ complianceFilter c (t + minDuration) r.Indices,
      t + minDuration + delta ≤ i.Expiration)
    (hc : compliance c r (t + minDuration) = Compliant) :
    compliance c r (t + delta + minDuration) = Compliant := by
  simp only [compliance] at hc ⊢
  by_cases h1 : (complianceFilter c (t + minDuration) r.Indices).length = 0
  · rw [if_pos h1] at hc
    exact absurd hc (by decide)
  · rw [if_neg h1] at hc
    by_cases h2 : ((complianceFilter c (t + minDuration) r.Indices).filter
        (fun i => ! switchableFrom (ActiveIndex r) i)).length = 0
    · rw [if_pos h2] at hc
      exact absurd hc (by decide)
    · obtain ⟨i, hiF⟩ := List.exists_mem_of_length_pos (Nat.pos_of_ne_zero h2)
      rcases List.mem_filter.mp hiF with ⟨hiL, hiNS⟩
      have hiExp := hexp i hiL
      simp only [complianceFilter, List.mem_filter] at hiL
      rcases hiL with ⟨hiIdx, hiCond⟩
      have hiL' : i ∈ complianceFilter c (t + delta + minDuration) r.Indices := by
        simp only [complianceFilter, List.mem_filter]
        refine ⟨hiIdx, ?_⟩
        simp only [Bool.and_eq_true, decide_eq_true_eq] at hiCond ⊢
        exact ⟨⟨⟨hiCond.1.1.1, hiCond.1.1.2⟩, hiCond.1.2⟩, by omega⟩
      have h1' : ¬ ((complianceFilter c (t + delta + minDuration)
          r.Indices).length = 0) := by
        intro hz
        rw [List.length_eq_zero] at hz
        rw [hz] at hiL'
        simp at hiL'
      have h2' : ¬ (((complianceFilter c (t + delta + minDuration)
          r.Indices).filter
            (fun i => ! switchableFrom (ActiveIndex r) i)).length = 0) := by
        intro hz
        rw [List.length_eq_zero] at hz
        have hmem : i ∈ (complianceFilter c (t + delta + minDuration)
            r.Indices).filter (fun i => ! switchableFrom (ActiveIndex r) i) :=
          List.mem_filter.mpr ⟨hiL', hiNS⟩
        rw [hz] at hmem
        simp at hmem
      rw [if_neg h1', if_neg h2']

/-- A reservation whose single Active index is valid until
`2 * minDuration` past time 0 (comfortably beyond the sleep window). -/
def c9_rsv2 : Reservation :=
  { ASID := 1, Indices := [⟨0, 1200000000000, IndexActive, 10, 42, 20⟩],
    activeIndex := 0, PathType := 0, TrafficSplit := 0, PathEndProps := 0,
    Steps := [] }

/-- Witness for the amended C9: with an index valid until
`2 * minDuration`, Compliant at time 0 stays Compliant one second later. -/
theorem c9_compliance_monotonic_amended_witness :
    compliance c9_conf c9_rsv2 (0 + Second + minDuration) = Compliant :=
  c9_compliance_monotonic_amended c9_conf c9_rsv2 0 Second (by decide)
    (by decide) (by decide) (by decide)
